import Mathlib

/-!
Verification of the `carbon_timeline.py` pipeline (src/carbon_timeline.py).

The development shallowly embeds the program's data model and core
operations:

* emission-factor constants (exact rationals; the program's decimal
  literals denote these values, and the emission claim fixes the
  exact-rational reading),
* `categorize_activity` (mode classification),
* `clean_fields` (normalization of a raw activity segment),
* `parse_timestamp` / period formatting (UTC, proleptic Gregorian
  calendar via the standard days-to-civil conversion),
* `kg_co2` (per-mode CO2 from summed kilometers),
* `bucketize` (pre-seeding of month/year buckets followed by per-activity
  summation and the CO2 pass).

Python dictionaries keyed by period label are modelled as ordered
association lists (`List (String × Bucket)`): `dictGet` raises `KeyError`
on a missing key and `dictSet` replaces the first matching key, appending
at the end otherwise — exactly `OrderedDict`'s observable behavior.
Python exceptions reachable from `bucketize` are modelled by `PyErr`
(`IndexError` from `clean_activities[0]` on an empty list, `KeyError`
from the summation lookup); the source defines no other failure there.

The pre-seeding `while current < last_timestamp` loop is embedded as a
recursion on an explicit iteration bound (`seedKeysFuel`); the bound is
provably sufficient, and `seedKeys_eq` below re-establishes the loop's
defining equation, so the embedding computes exactly the loop's result
while remaining structurally recursive.

Timestamps are nonnegative integers of milliseconds since the epoch
(Google Takeout exports); `math.floor(epoch / 1000)` on such values is
natural-number division by 1000.
-/

namespace CarbonTimeline

/-- `ROAD_KG_CO2_PER_KM = 0.120` in the source, read exactly. -/
def ROAD_KG_CO2_PER_KM : ℚ := 120 / 1000

/-- `CAR_OCCUPANCY = 1.5` in the source, read exactly. -/
def CAR_OCCUPANCY : ℚ := 15 / 10

/-- `AIR_KG_CO2_PER_KM = 0.156` in the source, read exactly. -/
def AIR_KG_CO2_PER_KM : ℚ := 156 / 1000

/-- `RAIL_KG_CO2_PER_KM = 0.006` in the source, read exactly. -/
def RAIL_KG_CO2_PER_KM : ℚ := 6 / 1000

/-- A normalized activity, the dict `{ts, distance, type}` built by
`clean_fields`: timestamp in milliseconds, distance in kilometers,
mode string (`"AIR"`, `"ROAD"` or `"RAIL"` for records the pipeline
keeps). -/
structure Activity where
  ts : Nat
  distance : Nat
  type : String
deriving DecidableEq, Repr

/-- The fields of a raw `activitySegment` object that `clean_fields`
reads: the start timestamp (present — `clean_fields` dereferences it
unconditionally), and the optional `distance` (meters) and
`activityType` fields. -/
structure ActivitySegment where
  startTimestampMs : Nat
  distance : Option Nat
  activityType : Option String
deriving DecidableEq, Repr

/-- One aggregation bucket: summed kilometers per mode and the derived
CO2 figures. -/
structure Bucket where
  air_km : Nat
  road_km : Nat
  rail_km : Nat
  air_co2 : Int
  road_co2 : Int
  rail_co2 : Int
deriving DecidableEq, Repr

/-- The zero-valued bucket inserted by the pre-seeding loop. -/
def zeroBucket : Bucket :=
  { air_km := 0, road_km := 0, rail_km := 0,
    air_co2 := 0, road_co2 := 0, rail_co2 := 0 }

/-- A UTC wall-clock instant as Python's `datetime` exposes it here
(microseconds are identically zero: `fromtimestamp` is applied to whole
seconds and `replace` zeroes the sub-second fields). -/
structure DateTime where
  year : Nat
  month : Nat
  day : Nat
  hour : Nat
  minute : Nat
  second : Nat
deriving DecidableEq, Repr

/-- Days-since-1970 to proleptic-Gregorian civil date (year, month, day),
the standard `civil_from_days` conversion; this is what
`datetime.fromtimestamp(_, tz=utc)` computes for nonnegative inputs. -/
def civilFromDays (days : Nat) : Nat × Nat × Nat :=
  let z := days + 719468
  let era := z / 146097
  let doe := z % 146097
  let yoe := (doe - doe / 1460 + doe / 36524 - doe / 146096) / 365
  let doy := doe - (365 * yoe + yoe / 4 - yoe / 100)
  let mp := (5 * doy + 2) / 153
  let d := doy - (153 * mp + 2) / 5 + 1
  let m := if mp < 10 then mp + 3 else mp - 9
  let y := yoe + era * 400 + (if m ≤ 2 then 1 else 0)
  (y, m, d)

/-- `parse_timestamp`: floor the epoch milliseconds to whole seconds,
then take the UTC datetime of that second. -/
def parse_timestamp (epoch : Nat) : DateTime :=
  let sec := epoch / 1000
  let days := sec / 86400
  let rem := sec % 86400
  let ymd := civilFromDays days
  { year := ymd.1, month := ymd.2.1, day := ymd.2.2,
    hour := rem / 3600, minute := rem % 3600 / 60, second := rem % 60 }

/-- The character of a decimal digit. -/
def digitChar (n : Nat) : Char := Char.ofNat (48 + n)

/-- Decimal digits of `n`, most significant first, computed with an
iteration bound (`n + 1` suffices since each step divides by 10). -/
def natDigitsAux : Nat → Nat → List Char
  | 0, _ => []
  | fuel + 1, n =>
    if n < 10 then [digitChar n]
    else natDigitsAux fuel (n / 10) ++ [digitChar (n % 10)]

/-- Decimal digits of `n`, most significant first. -/
def natDigits (n : Nat) : List Char := natDigitsAux (n + 1) n

/-- Zero-pad the decimal rendering of `n` to width `width`, as
`strftime`'s numeric directives do. -/
def padChars (width n : Nat) : List Char :=
  List.replicate (width - (natDigits n).length) '0' ++ natDigits n

/-- Aggregation granularity; `argparse` restricts `--resolution` to
these two values. -/
inductive Resolution where
  | MONTH
  | YEAR
deriving DecidableEq, Repr

/-- The `"MONTH"`/`"YEAR"` branches of `print_timestamp`:
`strftime("%Y-%m")` and `strftime("%Y")`. -/
def periodLabel (res : Resolution) (ts : DateTime) : String :=
  match res with
  | .MONTH => ⟨padChars 4 ts.year ++ '-' :: padChars 2 ts.month⟩
  | .YEAR => ⟨padChars 4 ts.year⟩

/-- The `"SECOND"` branch of `print_timestamp` used by debug output:
`strftime("%Y-%m-%d %H:%M:%S%z")`, where `%z` renders UTC as `+0000`. -/
def formatSecond (ts : DateTime) : String :=
  ⟨padChars 4 ts.year ++ '-' :: padChars 2 ts.month ++ '-' :: padChars 2 ts.day ++
    ' ' :: padChars 2 ts.hour ++ ':' :: padChars 2 ts.minute ++ ':' :: padChars 2 ts.second ++
    ['+', '0', '0', '0', '0']⟩

/-- `categorize_activity`: raw activity-type string to mode string, or
`none` for anything unrecognized. -/
def categorize_activity (activity : String) : Option String :=
  if activity = "FLYING" then some "AIR"
  else if activity = "IN_TAXI" ∨ activity = "IN_PASSENGER_VEHICLE" ∨ activity = "IN_VEHICLE" then
    some "ROAD"
  else if activity = "IN_TRAIN" ∨ activity = "IN_TRAM" then some "RAIL"
  else none

/-- `clean_fields`: keep a segment only if it has a distance (converted
to kilometers by floor division) and an activity type that classifies to
a mode; otherwise return `none`. -/
def clean_fields (activity_segment : ActivitySegment) : Option Activity :=
  let ts := activity_segment.startTimestampMs
  match activity_segment.distance with
  | none => none
  | some meters =>
    match activity_segment.activityType with
    | none => none
    | some raw =>
      match categorize_activity raw with
      | none => none
      | some mode => some { ts := ts, distance := meters / 1000, type := mode }

/-- `kg_co2`: CO2 kilograms for `distance` kilometers by mode, the
source's cascade of `if` assignments followed by `math.floor`. -/
def kg_co2 (distance : Nat) (transportation : String) : Int :=
  let co2 : ℚ := 0
  let co2 : ℚ :=
    if transportation = "ROAD" then (distance * ROAD_KG_CO2_PER_KM) / CAR_OCCUPANCY else co2
  let co2 : ℚ := if transportation = "AIR" then distance * AIR_KG_CO2_PER_KM else co2
  let co2 : ℚ := if transportation = "RAIL" then distance * RAIL_KG_CO2_PER_KM else co2
  Int.floor co2

/-- Python exceptions reachable from `bucketize`: `IndexError` from
`clean_activities[0]` on an empty list, and `KeyError` (carrying the
missing key) from `results[short]` in the summation loop. -/
inductive PyErr where
  | indexError
  | keyError (key : String)
deriving DecidableEq, Repr

/-- `results[k]` on a Python dict: the value at `k`, or a `KeyError`. -/
def dictGet (m : List (String × Bucket)) (k : String) : Except PyErr Bucket :=
  match m with
  | [] => .error (.keyError k)
  | (k', v) :: rest => if k' = k then .ok v else dictGet rest k

/-- `results[k] = v` on an `OrderedDict`: replace the value at the first
matching key, or append a new entry at the end. -/
def dictSet (m : List (String × Bucket)) (k : String) (v : Bucket) : List (String × Bucket) :=
  match m with
  | [] => [(k, v)]
  | (k', v') :: rest => if k' = k then (k, v) :: rest else (k', v') :: dictSet rest k v

/-- Python `datetime` comparison: lexicographic on the fields
(microseconds are identically zero here). -/
def dtLt (a b : DateTime) : Bool :=
  if a.year ≠ b.year then a.year < b.year
  else if a.month ≠ b.month then a.month < b.month
  else if a.day ≠ b.day then a.day < b.day
  else if a.hour ≠ b.hour then a.hour < b.hour
  else if a.minute ≠ b.minute then a.minute < b.minute
  else a.second < b.second

/-- The period-start floor of a timestamp: `replace(day=1, hour=0, ...)`
for `MONTH`, additionally `month=1` for `YEAR`. -/
def floorPeriod (res : Resolution) (dt : DateTime) : DateTime :=
  match res with
  | .MONTH => { dt with day := 1, hour := 0, minute := 0, second := 0 }
  | .YEAR => { dt with month := 1, day := 1, hour := 0, minute := 0, second := 0 }

/-- `relativedelta(months=1)` / `relativedelta(years=1)` on the loop's
datetimes (day-1 midnights with a valid month, so no day clamping or
month normalization beyond the single rollover can occur). -/
def incrPeriod (res : Resolution) (dt : DateTime) : DateTime :=
  match res with
  | .MONTH =>
    if 12 ≤ dt.month then { dt with year := dt.year + 1, month := 1 }
    else { dt with month := dt.month + 1 }
  | .YEAR => { dt with year := dt.year + 1 }

/-- An upper bound on the pre-seeding loop's progress: `incrPeriod`
strictly increases it, and `dtLt` respects it, which makes it an
iteration bound for the loop. -/
def dtMeasure (dt : DateTime) : Nat := 13 * dt.year + min dt.month 13

/-- The labels inserted by the pre-seeding `while current < last` walk,
as a recursion on the explicit iteration bound `fuel`. -/
def seedKeysFuel : Nat → DateTime → DateTime → Resolution → List String
  | 0, _, _, _ => []
  | fuel + 1, current, last, res =>
    if dtLt current last then
      periodLabel res current :: seedKeysFuel fuel (incrPeriod res current) last res
    else []

/-- The labels inserted by the pre-seeding loop of `bucketize`.
`seedKeys_eq` below proves the loop's defining equation, so this is
exactly the sequence of labels the `while current < last_timestamp`
loop walks through. -/
def seedKeys (current last : DateTime) (res : Resolution) : List String :=
  seedKeysFuel (dtMeasure last + 1 - dtMeasure current) current last res

/-- The dict after the pre-seeding loop: one `results[label] = zeros`
insertion per iterated label, in loop order. -/
def seedBuckets (current last : DateTime) (res : Resolution) : List (String × Bucket) :=
  (seedKeys current last res).foldl (fun m k => dictSet m k zeroBucket) []

/-- The period label of an activity, `print_timestamp(parse_timestamp(ts), resolution)`. -/
def actLabel (res : Resolution) (a : Activity) : String :=
  periodLabel res (parse_timestamp a.ts)

/-- The three independent `if` additions of the summation loop body. -/
def addToBucket (b : Bucket) (a : Activity) : Bucket :=
  let b := if a.type = "AIR" then { b with air_km := b.air_km + a.distance } else b
  let b := if a.type = "ROAD" then { b with road_km := b.road_km + a.distance } else b
  if a.type = "RAIL" then { b with rail_km := b.rail_km + a.distance } else b

/-- The summation loop: for each activity, read its period's bucket
(`KeyError` if the label is absent), add the distance to the matching
mode, and store the bucket back. -/
def sumLoop (res : Resolution) (m : List (String × Bucket)) :
    List Activity → Except PyErr (List (String × Bucket))
  | [] => .ok m
  | a :: rest =>
    match dictGet m (actLabel res a) with
    | .error e => .error e
    | .ok b => sumLoop res (dictSet m (actLabel res a) (addToBucket b a)) rest

/-- The CO2 recomputation of one bucket in the final pass. -/
def co2Fill (b : Bucket) : Bucket :=
  { b with air_co2 := kg_co2 b.air_km "AIR",
           road_co2 := kg_co2 b.road_km "ROAD",
           rail_co2 := kg_co2 b.rail_km "RAIL" }

/-- The final pass of `bucketize`: recompute the three CO2 fields of
every bucket from its summed distances. -/
def co2Pass (m : List (String × Bucket)) : List (String × Bucket) :=
  m.map (fun kv => (kv.1, co2Fill kv.2))

/-- `bucketize`: floor the first activity's timestamp to its period
start, pre-seed empty buckets while `current < last_timestamp`, sum the
distances per mode per period, then compute CO2 per bucket. On an empty
list, `clean_activities[0]` raises `IndexError`. -/
def bucketize (clean_activities : List Activity) (resolution : Resolution) :
    Except PyErr (List (String × Bucket)) :=
  match clean_activities with
  | [] => .error .indexError
  | a0 :: rest =>
    let current := floorPeriod resolution (parse_timestamp a0.ts)
    let lastTs := parse_timestamp ((a0 :: rest).getLast (List.cons_ne_nil a0 rest)).ts
    match sumLoop resolution (seedBuckets current lastTs resolution) (a0 :: rest) with
    | .error e => .error e
    | .ok summed => .ok (co2Pass summed)

/-- Kernel-computable twin of `co2Fill`: the emission formulas reduced
to natural-number division (`bucketize_eval` below bridges to the
rational-floor form). -/
def co2FillEval (b : Bucket) : Bucket :=
  { b with air_co2 := ((39 * b.air_km) / 250 : ℕ),
           road_co2 := ((2 * b.road_km) / 25 : ℕ),
           rail_co2 := ((3 * b.rail_km) / 500 : ℕ) }

/-- Kernel-computable twin of `bucketize`, used to evaluate it at
concrete inputs; `bucketize_eval` proves it equal to `bucketize`. -/
def bucketizeEval (clean_activities : List Activity) (resolution : Resolution) :
    Except PyErr (List (String × Bucket)) :=
  match clean_activities with
  | [] => .error .indexError
  | a0 :: rest =>
    let current := floorPeriod resolution (parse_timestamp a0.ts)
    let lastTs := parse_timestamp ((a0 :: rest).getLast (List.cons_ne_nil a0 rest)).ts
    match sumLoop resolution (seedBuckets current lastTs resolution) (a0 :: rest) with
    | .error e => .error e
    | .ok summed => .ok (summed.map (fun kv => (kv.1, co2FillEval kv.2)))

/-- The `*_km` field of a bucket selected by mode string. -/
def kmOf (t : String) (b : Bucket) : Nat :=
  if t = "AIR" then b.air_km
  else if t = "ROAD" then b.road_km
  else if t = "RAIL" then b.rail_km
  else 0

/-- The total of one mode's `*_km` field across all buckets. -/
def totalKm (t : String) (m : List (String × Bucket)) : Nat :=
  (m.map (fun kv => kmOf t kv.2)).sum

/-- The total distance of the input activities of one mode. -/
def totalDist (t : String) (acts : List Activity) : Nat :=
  ((acts.filter (fun a => a.type = t)).map Activity.distance).sum

/-- Ascending order by timestamp, the order `extract_activities`
establishes before bucketing. -/
def SortedByTs (acts : List Activity) : Prop :=
  List.Pairwise (fun a b => a.ts ≤ b.ts) acts

instance : DecidablePred SortedByTs := fun acts =>
  inferInstanceAs (Decidable (List.Pairwise _ acts))

/-- An activity with its timestamp floored to whole seconds (the
sub-second part of the epoch milliseconds dropped). -/
def truncActivity (a : Activity) : Activity :=
  { a with ts := a.ts / 1000 * 1000 }

/-- The numeric value of a digit character. -/
def digitVal (c : Char) : Nat := c.toNat - 48

/-- The number denoted by a big-endian digit string. -/
def valDigits (l : List Char) : Nat := l.foldl (fun acc c => 10 * acc + digitVal c) 0

/-- Strict ordering of period starts by (year, month); `incrPeriod`
strictly increases it, which makes consecutive period labels pairwise
distinct. -/
def dtLex (a b : DateTime) : Prop :=
  a.year < b.year ∨ (a.year = b.year ∧ a.month < b.month)

/-! ## Evaluation of the emission function -/

theorem kg_co2_road_eq (d : Nat) : kg_co2 d "ROAD" = ((2 * d) / 25 : ℕ) := by
  have h : ((d : ℚ) * ROAD_KG_CO2_PER_KM) / CAR_OCCUPANCY = ((2 * d : ℤ) : ℚ) / ((25 : ℕ) : ℚ) := by
    unfold ROAD_KG_CO2_PER_KM CAR_OCCUPANCY; push_cast; ring
  simp only [kg_co2, String.reduceEq, reduceIte]
  rw [h, Rat.floor_intCast_div_natCast]
  omega

theorem kg_co2_air_eq (d : Nat) : kg_co2 d "AIR" = ((39 * d) / 250 : ℕ) := by
  have h : ((d : ℚ) * AIR_KG_CO2_PER_KM) = ((39 * d : ℤ) : ℚ) / ((250 : ℕ) : ℚ) := by
    unfold AIR_KG_CO2_PER_KM; push_cast; ring
  simp only [kg_co2, String.reduceEq, reduceIte]
  rw [h, Rat.floor_intCast_div_natCast]
  omega

theorem kg_co2_rail_eq (d : Nat) : kg_co2 d "RAIL" = ((3 * d) / 500 : ℕ) := by
  have h : ((d : ℚ) * RAIL_KG_CO2_PER_KM) = ((3 * d : ℤ) : ℚ) / ((500 : ℕ) : ℚ) := by
    unfold RAIL_KG_CO2_PER_KM; push_cast; ring
  simp only [kg_co2, String.reduceEq, reduceIte]
  rw [h, Rat.floor_intCast_div_natCast]
  omega

theorem kg_co2_other (d : Nat) (t : String) (h1 : t ≠ "ROAD") (h2 : t ≠ "AIR")
    (h3 : t ≠ "RAIL") : kg_co2 d t = 0 := by
  simp [kg_co2, h1, h2, h3]

/-! ## The computable twin of `bucketize` -/

theorem co2Fill_eval (b : Bucket) : co2Fill b = co2FillEval b := by
  simp [co2Fill, co2FillEval, kg_co2_air_eq, kg_co2_road_eq, kg_co2_rail_eq]

theorem bucketize_eq_eval (acts : List Activity) (res : Resolution) :
    bucketize acts res = bucketizeEval acts res := by
  cases acts with
  | nil => rfl
  | cons a0 rest =>
    simp only [bucketize, bucketizeEval]
    split <;> rename_i h <;> simp [h, co2Pass, co2Fill_eval]

/-! ## Claim C4: mode classification -/

/-- C4: `categorize_activity` is a pure total function with exactly the
fixed mapping — `"FLYING"` to `AIR`; `"IN_TAXI"`, `"IN_PASSENGER_VEHICLE"`
and `"IN_VEHICLE"` to `ROAD`; `"IN_TRAIN"` and `"IN_TRAM"` to `RAIL`;
every other string to no mode (record dropped). -/
theorem categorize_activity_spec :
    categorize_activity "FLYING" = some "AIR" ∧
    categorize_activity "IN_TAXI" = some "ROAD" ∧
    categorize_activity "IN_PASSENGER_VEHICLE" = some "ROAD" ∧
    categorize_activity "IN_VEHICLE" = some "ROAD" ∧
    categorize_activity "IN_TRAIN" = some "RAIL" ∧
    categorize_activity "IN_TRAM" = some "RAIL" ∧
    ∀ s : String, s ∉ (["FLYING", "IN_TAXI", "IN_PASSENGER_VEHICLE", "IN_VEHICLE",
      "IN_TRAIN", "IN_TRAM"] : List String) → categorize_activity s = none := by
  refine ⟨rfl, rfl, rfl, rfl, rfl, rfl, ?_⟩
  intro s hs
  simp only [List.mem_cons, List.not_mem_nil, or_false, not_or] at hs
  obtain ⟨h1, h2, h3, h4, h5, h6⟩ := hs
  simp [categorize_activity, h1, h2, h3, h4, h5, h6]

/-- Witness for C4: `"STILL"` is not in the recognized set and is
classified to no mode. -/
theorem categorize_activity_spec_witness : categorize_activity "STILL" = none :=
  categorize_activity_spec.2.2.2.2.2.2 "STILL" (by decide)

/-! ## Claim C5: the emission formulas -/

/-- C5: for every nonnegative integer distance, `kg_co2` computes
`floor(d * 0.120 / 1.5)` for `ROAD`, `floor(d * 0.156)` for `AIR` and
`floor(d * 0.006)` for `RAIL`, with the constants read as exact
rationals and truncation toward negative infinity. -/
theorem kg_co2_formulas (d : ℕ) :
    kg_co2 d "ROAD" = ⌊((d : ℚ) * 0.120) / 1.5⌋ ∧
    kg_co2 d "AIR" = ⌊(d : ℚ) * 0.156⌋ ∧
    kg_co2 d "RAIL" = ⌊(d : ℚ) * 0.006⌋ := by
  refine ⟨?_, ?_, ?_⟩ <;>
    simp only [kg_co2, String.reduceEq, reduceIte] <;>
    norm_num [ROAD_KG_CO2_PER_KM, CAR_OCCUPANCY, AIR_KG_CO2_PER_KM, RAIL_KG_CO2_PER_KM]

/-! ## Claim C9: silent drop of incomplete segments -/

/-- C9: a segment (with its start timestamp present) lacking a distance
field, or lacking an activity type, or whose activity type classifies to
no mode, is normalized to `none` by `clean_fields` — no record and no
error, so it can appear in neither debug nor normal output. -/
theorem clean_fields_drops (seg : ActivitySegment) :
    (seg.distance = none → clean_fields seg = none) ∧
    (seg.activityType = none → clean_fields seg = none) ∧
    (∀ t : String, seg.activityType = some t → categorize_activity t = none →
      clean_fields seg = none) := by
  refine ⟨?_, ?_, ?_⟩
  · intro h; simp [clean_fields, h]
  · intro h; cases hd : seg.distance <;> simp [clean_fields, hd, h]
  · intro t ht hcat; cases hd : seg.distance <;> simp [clean_fields, hd, ht, hcat]

/-- Witness for C9: a `"STILL"` segment with both fields present is
dropped. -/
theorem clean_fields_drops_witness :
    clean_fields ⟨1610150400000, some 12000, some "STILL"⟩ = none :=
  (clean_fields_drops ⟨1610150400000, some 12000, some "STILL"⟩).2.2 "STILL" rfl (by decide)

/-! ## Claim C3: behavior on the empty list -/

/-- C3 (amended): on the empty activities list, `bucketize` fails with
the `IndexError` that `clean_activities[0]` raises — a generic indexing
crash, not a distinguished empty-input error (the code defines no
`EmptyInputError`; `PyErr` enumerates every exception `bucketize` can
raise and has no such kind). -/
theorem bucketize_empty (res : Resolution) :
    bucketize ([] : List Activity) res = .error .indexError := by
  cases res <;> rfl

/-- Counterexample to C3 as stated: at the concrete empty input the
error is `IndexError`, the same error kind any out-of-range list index
raises, and in particular a `keyError`-free `PyErr` value rather than a
distinguished empty-input error. -/
theorem bucketize_empty_counterexample :
    bucketize ([] : List Activity) .MONTH = .error .indexError ∧
    PyErr.indexError ≠ PyErr.keyError "EmptyInputError" := by
  exact ⟨rfl, by decide⟩

/-! ## Claim C2: the period key can be missing at the upper boundary -/

/-- C2 (the code violates the claim): for the sorted non-empty input
whose last activity's timestamp falls exactly on a period boundary
(2021-03-01T00:00:00Z), the pre-seeding loop stops before seeding
"2021-03" (`current < lastTimestamp` fails on equality), and the
summation lookup raises `KeyError` instead of never failing. -/
theorem bucketize_boundary_keyError :
    bucketize [⟨1610150400000, 100, "ROAD"⟩, ⟨1614556800000, 200, "AIR"⟩] .MONTH =
      .error (.keyError "2021-03") := by
  rw [bucketize_eq_eval]; rfl

/-! ## Claim C7: the end-to-end example -/

/-- C7: normalizing the two example segments gives road 100 km
(2021-01-05) and air 500 km (2021-03-10), and `bucketize` at `MONTH`
resolution returns exactly the buckets 2021-01 (road_km 100, road_co2 8),
2021-02 (all zeros), 2021-03 (air_km 500, air_co2 78), in that order. -/
theorem bucketize_example :
    clean_fields ⟨1609804800000, some 100000, some "IN_PASSENGER_VEHICLE"⟩ =
      some ⟨1609804800000, 100, "ROAD"⟩ ∧
    clean_fields ⟨1615334400000, some 500000, some "FLYING"⟩ =
      some ⟨1615334400000, 500, "AIR"⟩ ∧
    bucketize [⟨1609804800000, 100, "ROAD"⟩, ⟨1615334400000, 500, "AIR"⟩] .MONTH =
      .ok [("2021-01", ⟨0, 100, 0, 0, 8, 0⟩),
           ("2021-02", ⟨0, 0, 0, 0, 0, 0⟩),
           ("2021-03", ⟨500, 0, 0, 78, 0, 0⟩)] := by
  refine ⟨rfl, rfl, ?_⟩
  rw [bucketize_eq_eval]; rfl

/-! ## Claim C8: zero and monotonicity of the emission function -/

/-- C8: for each mode, `kg_co2 0 mode = 0`, and `kg_co2` is monotone
non-decreasing in the distance. -/
theorem kg_co2_zero_monotone :
    ∀ t ∈ (["AIR", "ROAD", "RAIL"] : List String),
      kg_co2 0 t = 0 ∧ ∀ d1 d2 : ℕ, d1 ≤ d2 → kg_co2 d1 t ≤ kg_co2 d2 t := by
  intro t ht
  simp only [List.mem_cons, List.not_mem_nil, or_false] at ht
  rcases ht with rfl | rfl | rfl
  · refine ⟨by rw [kg_co2_air_eq]; decide, ?_⟩
    intro d1 d2 h
    rw [kg_co2_air_eq, kg_co2_air_eq]
    exact_mod_cast Nat.div_le_div_right (Nat.mul_le_mul (Nat.le_refl 39) h)
  · refine ⟨by rw [kg_co2_road_eq]; decide, ?_⟩
    intro d1 d2 h
    rw [kg_co2_road_eq, kg_co2_road_eq]
    exact_mod_cast Nat.div_le_div_right (Nat.mul_le_mul (Nat.le_refl 2) h)
  · refine ⟨by rw [kg_co2_rail_eq]; decide, ?_⟩
    intro d1 d2 h
    rw [kg_co2_rail_eq, kg_co2_rail_eq]
    exact_mod_cast Nat.div_le_div_right (Nat.mul_le_mul (Nat.le_refl 3) h)

/-- Witness for C8 at mode `"ROAD"` and distances `7 ≤ 9`. -/
theorem kg_co2_zero_monotone_witness :
    kg_co2 0 "ROAD" = 0 ∧ kg_co2 7 "ROAD" ≤ kg_co2 9 "ROAD" := by
  obtain ⟨h0, hm⟩ := kg_co2_zero_monotone "ROAD" (by decide)
  exact ⟨h0, hm 7 9 (by decide)⟩

/-! ## Claim C10: truncation to whole seconds -/

theorem parse_timestamp_trunc (a : Activity) :
    parse_timestamp (truncActivity a).ts = parse_timestamp a.ts := by
  simp only [truncActivity, parse_timestamp]
  rw [Nat.mul_div_cancel (a.ts / 1000) (by norm_num)]

theorem getLast_map_of_ne_nil {α β : Type} (f : α → β) (l : List α) (h : l ≠ [])
    (h2 : l.map f ≠ []) : (l.map f).getLast h2 = f (l.getLast h) := by
  have hm := List.getLast?_map f l
  rw [List.getLast?_eq_getLast_of_ne_nil h2, List.getLast?_eq_getLast_of_ne_nil h] at hm
  simp only [Option.map_some', Option.some.injEq] at hm
  exact hm

theorem sumLoop_trunc (res : Resolution) :
    ∀ (acts : List Activity) (m : List (String × Bucket)),
      sumLoop res m (acts.map truncActivity) = sumLoop res m acts := by
  intro acts
  induction acts with
  | nil => intro m; rfl
  | cons a rest ih =>
    intro m
    have hlab : actLabel res (truncActivity a) = actLabel res a := by
      simp only [actLabel, parse_timestamp_trunc]
    simp only [List.map_cons, sumLoop, hlab]
    have htype : (truncActivity a).type = a.type := rfl
    have hdist : (truncActivity a).distance = a.distance := rfl
    cases h : dictGet m (actLabel res a) with
    | error e => rfl
    | ok b =>
      simp only [addToBucket, htype, hdist]
      exact ih _

theorem bucketize_trunc (acts : List Activity) (res : Resolution) :
    bucketize (acts.map truncActivity) res = bucketize acts res := by
  cases acts with
  | nil => rfl
  | cons a0 rest =>
    simp only [List.map_cons, bucketize]
    have hg : (truncActivity a0 :: List.map truncActivity rest).getLast
          (List.cons_ne_nil _ _) =
        truncActivity ((a0 :: rest).getLast (List.cons_ne_nil a0 rest)) :=
      getLast_map_of_ne_nil truncActivity (a0 :: rest) (List.cons_ne_nil a0 rest) (by simp)
    rw [hg]
    simp only [parse_timestamp_trunc]
    rw [show truncActivity a0 :: List.map truncActivity rest =
      List.map truncActivity (a0 :: rest) from rfl, sumLoop_trunc]

/-- C10: timestamps are truncated to whole seconds before any use —
`parse_timestamp` depends only on `floor(epochMs / 1000)`, so equal
floored seconds give identical parsed datetimes, identical
debug-formatted timestamps and identical period labels; and `bucketize`
(including its pre-seeding comparison against the last timestamp) is
unchanged when every activity's milliseconds are floored to the
containing second. -/
theorem timestamps_truncated_to_seconds :
    (∀ ms1 ms2 : ℕ, ms1 / 1000 = ms2 / 1000 → parse_timestamp ms1 = parse_timestamp ms2) ∧
    (∀ ms1 ms2 : ℕ, ms1 / 1000 = ms2 / 1000 →
      formatSecond (parse_timestamp ms1) = formatSecond (parse_timestamp ms2) ∧
      ∀ res : Resolution,
        periodLabel res (parse_timestamp ms1) = periodLabel res (parse_timestamp ms2)) ∧
    (∀ (acts : List Activity) (res : Resolution),
      bucketize (acts.map truncActivity) res = bucketize acts res) := by
  have hparse : ∀ ms1 ms2 : ℕ, ms1 / 1000 = ms2 / 1000 →
      parse_timestamp ms1 = parse_timestamp ms2 := by
    intro ms1 ms2 h
    simp only [parse_timestamp]
    rw [h]
  refine ⟨hparse, ?_, bucketize_trunc⟩
  intro ms1 ms2 h
  rw [hparse ms1 ms2 h]
  exact ⟨rfl, fun _ => rfl⟩

/-- Witness for C10: 1500 ms and 1999 ms share the floored second 1 and
parse to the same datetime with the same month label. -/
theorem timestamps_truncated_to_seconds_witness :
    parse_timestamp 1500 = parse_timestamp 1999 ∧
    periodLabel .MONTH (parse_timestamp 1500) = periodLabel .MONTH (parse_timestamp 1999) :=
  ⟨timestamps_truncated_to_seconds.1 1500 1999 (by decide),
   (timestamps_truncated_to_seconds.2.1 1500 1999 (by decide)).2 .MONTH⟩

/-! ## Claim C1: distance conservation -/

theorem kmOf_zeroBucket (t : String) : kmOf t zeroBucket = 0 := by
  simp only [kmOf, zeroBucket]
  split_ifs <;> rfl

theorem kmOf_co2Fill (t : String) (b : Bucket) : kmOf t (co2Fill b) = kmOf t b := by
  simp only [kmOf, co2Fill]

theorem kmOf_addToBucket (t : String) (b : Bucket) (a : Activity)
    (ht : t = "AIR" ∨ t = "ROAD" ∨ t = "RAIL") :
    kmOf t (addToBucket b a) = kmOf t b + (if a.type = t then a.distance else 0) := by
  rcases ht with rfl | rfl | rfl <;>
    (simp only [addToBucket, kmOf, String.reduceEq, reduceIte]
     split_ifs <;> simp_all)

theorem totalKm_cons (t : String) (kv : String × Bucket) (m : List (String × Bucket)) :
    totalKm t (kv :: m) = kmOf t kv.2 + totalKm t m := by
  simp [totalKm]

theorem totalDist_cons (t : String) (a : Activity) (rest : List Activity) :
    totalDist t (a :: rest) = (if a.type = t then a.distance else 0) + totalDist t rest := by
  by_cases h : a.type = t <;> simp [totalDist, List.filter_cons, h]

theorem mem_dictSet {m : List (String × Bucket)} {k : String} {v : Bucket}
    {kv : String × Bucket} (h : kv ∈ dictSet m k v) : kv = (k, v) ∨ kv ∈ m := by
  induction m with
  | nil => simpa [dictSet] using h
  | cons hd tl ih =>
    simp only [dictSet] at h
    split_ifs at h with hk
    · rcases List.mem_cons.mp h with h | h
      · exact Or.inl h
      · exact Or.inr (List.mem_cons_of_mem hd h)
    · rcases List.mem_cons.mp h with h | h
      · exact Or.inr (h ▸ List.mem_cons_self hd tl)
      · rcases ih h with h | h
        · exact Or.inl h
        · exact Or.inr (List.mem_cons_of_mem hd h)

theorem totalKm_dictSet (t : String) {m : List (String × Bucket)} {k : String} {b : Bucket}
    (v : Bucket) (h : dictGet m k = .ok b) :
    totalKm t (dictSet m k v) + kmOf t b = totalKm t m + kmOf t v := by
  induction m with
  | nil => simp [dictGet] at h
  | cons hd tl ih =>
    obtain ⟨k', v'⟩ := hd
    simp only [dictGet] at h
    simp only [dictSet]
    split_ifs at h ⊢ with hk
    · injection h with h
      subst h
      simp only [totalKm_cons]
      omega
    · simp only [totalKm_cons]
      have := ih h
      omega

theorem sumLoop_totalKm (res : Resolution) (t : String)
    (ht : t = "AIR" ∨ t = "ROAD" ∨ t = "RAIL") :
    ∀ (acts : List Activity) (m m' : List (String × Bucket)),
      sumLoop res m acts = .ok m' → totalKm t m' = totalKm t m + totalDist t acts := by
  intro acts
  induction acts with
  | nil =>
    intro m m' h
    simp only [sumLoop] at h
    injection h with h
    subst h
    simp [totalDist]
  | cons a rest ih =>
    intro m m' h
    simp only [sumLoop] at h
    cases hget : dictGet m (actLabel res a) with
    | error e => simp [hget] at h
    | ok b =>
      simp only [hget] at h
      have hrec := ih _ _ h
      have hacc := totalKm_dictSet t (addToBucket b a) hget
      have hadd := kmOf_addToBucket t b a ht
      rw [totalDist_cons]
      omega

theorem foldl_dictSet_allZero (ks : List String) :
    ∀ m : List (String × Bucket), (∀ kv ∈ m, kv.2 = zeroBucket) →
      ∀ kv ∈ ks.foldl (fun m k => dictSet m k zeroBucket) m, kv.2 = zeroBucket := by
  induction ks with
  | nil => intro m hm kv hkv; exact hm kv hkv
  | cons k ks ih =>
    intro m hm kv hkv
    refine ih (dictSet m k zeroBucket) ?_ kv hkv
    intro kv' hkv'
    rcases mem_dictSet hkv' with h | h
    · rw [h]
    · exact hm kv' h

theorem seedBuckets_allZero (current last : DateTime) (res : Resolution) :
    ∀ kv ∈ seedBuckets current last res, kv.2 = zeroBucket :=
  foldl_dictSet_allZero (seedKeys current last res) [] (by intro kv h; cases h)

theorem totalKm_allZero (t : String) :
    ∀ m : List (String × Bucket), (∀ kv ∈ m, kv.2 = zeroBucket) → totalKm t m = 0 := by
  intro m
  induction m with
  | nil => intro _; rfl
  | cons kv tl ih =>
    intro h
    rw [totalKm_cons, h kv (List.mem_cons_self kv tl), kmOf_zeroBucket,
      ih (fun kv' h' => h kv' (List.mem_cons_of_mem kv h'))]

theorem totalKm_co2Pass (t : String) (m : List (String × Bucket)) :
    totalKm t (co2Pass m) = totalKm t m := by
  induction m with
  | nil => rfl
  | cons kv tl ih =>
    simp only [co2Pass, List.map_cons] at ih ⊢
    rw [totalKm_cons, totalKm_cons, kmOf_co2Fill, ih]

/-- C1: for every non-empty timestamp-sorted activity list, each mode in
{AIR, ROAD, RAIL} and either resolution, the sum of that mode's `*_km`
field over all buckets returned by `bucketize` equals the sum of the
distances of that mode's input activities — no distance lost or
double-counted. -/
theorem bucketize_distance_conservation (acts : List Activity) (res : Resolution) (t : String)
    (hne : acts ≠ []) (hsorted : SortedByTs acts)
    (ht : t = "AIR" ∨ t = "ROAD" ∨ t = "RAIL")
    (m : List (String × Bucket)) (hok : bucketize acts res = .ok m) :
    totalKm t m = totalDist t acts := by
  cases acts with
  | nil => exact absurd rfl hne
  | cons a0 rest =>
    simp only [bucketize] at hok
    split at hok
    · exact absurd hok (by simp)
    · rename_i summed hsum
      injection hok with hok
      subst hok
      rw [totalKm_co2Pass, sumLoop_totalKm res t ht (a0 :: rest) _ summed hsum,
        totalKm_allZero t _ (seedBuckets_allZero _ _ _)]
      omega

/-- Witness for C1: a single 42 km rail activity is conserved into the
single bucket of its month. -/
theorem bucketize_distance_conservation_witness :
    totalKm "RAIL" [("2021-01", ⟨0, 0, 42, 0, 0, 0⟩)] =
      totalDist "RAIL" [⟨1609804800000, 42, "RAIL"⟩] :=
  bucketize_distance_conservation [⟨1609804800000, 42, "RAIL"⟩] .MONTH "RAIL"
    (by decide) (by decide) (Or.inr (Or.inr rfl))
    [("2021-01", ⟨0, 0, 42, 0, 0, 0⟩)] (by rw [bucketize_eq_eval]; rfl)

/-! ## Claim C6: decimal rendering and label injectivity -/

theorem digitVal_digitChar : ∀ n : Nat, n < 10 → digitVal (digitChar n) = n := by decide

theorem digitChar_ne_dash : ∀ n : Nat, n < 10 → digitChar n ≠ '-' := by decide

theorem valDigits_append_singleton (l : List Char) (c : Char) :
    valDigits (l ++ [c]) = 10 * valDigits l + digitVal c := by
  simp only [valDigits, List.foldl_append, List.foldl_cons, List.foldl_nil]

theorem valDigits_natDigitsAux : ∀ (fuel n : Nat), n < fuel →
    valDigits (natDigitsAux fuel n) = n := by
  intro fuel
  induction fuel with
  | zero => intro n h; omega
  | succ fuel ih =>
    intro n h
    by_cases h10 : n < 10
    · simp only [natDigitsAux, if_pos h10, valDigits, List.foldl_cons, List.foldl_nil]
      rw [Nat.mul_zero, Nat.zero_add, digitVal_digitChar n h10]
    · have hdiv : n / 10 < fuel := by
        have := Nat.div_lt_self (by omega : 0 < n) (by norm_num : 1 < 10)
        omega
      simp only [natDigitsAux, if_neg h10]
      rw [valDigits_append_singleton, ih (n / 10) hdiv,
        digitVal_digitChar (n % 10) (Nat.mod_lt n (by norm_num))]
      omega

theorem valDigits_natDigits (n : Nat) : valDigits (natDigits n) = n :=
  valDigits_natDigitsAux (n + 1) n (Nat.lt_succ_self n)

theorem valDigits_replicate_zero : ∀ k : Nat,
    (List.replicate k '0').foldl (fun acc c => 10 * acc + digitVal c) 0 = 0 := by
  intro k
  induction k with
  | zero => rfl
  | succ k ih => simpa [List.replicate_succ, List.foldl_cons] using ih

theorem valDigits_padChars (w n : Nat) : valDigits (padChars w n) = n := by
  simp only [padChars, valDigits, List.foldl_append, valDigits_replicate_zero]
  exact valDigits_natDigits n

theorem padChars_inj {w a b : Nat} (h : padChars w a = padChars w b) : a = b := by
  have := congrArg valDigits h
  rwa [valDigits_padChars, valDigits_padChars] at this

theorem mem_natDigitsAux : ∀ (fuel n : Nat) (c : Char), c ∈ natDigitsAux fuel n →
    ∃ d : Nat, d < 10 ∧ c = digitChar d := by
  intro fuel
  induction fuel with
  | zero => intro n c h; cases h
  | succ fuel ih =>
    intro n c h
    by_cases h10 : n < 10
    · simp only [natDigitsAux, if_pos h10, List.mem_singleton] at h
      exact ⟨n, h10, h⟩
    · simp only [natDigitsAux, if_neg h10, List.mem_append, List.mem_singleton] at h
      rcases h with h | h
      · exact ih (n / 10) c h
      · exact ⟨n % 10, Nat.mod_lt n (by norm_num), h⟩

theorem ne_dash_of_mem_padChars {c : Char} {w n : Nat} (h : c ∈ padChars w n) : c ≠ '-' := by
  simp only [padChars, List.mem_append, List.mem_replicate] at h
  rcases h with ⟨_, h⟩ | h
  · rw [h]; decide
  · obtain ⟨d, hd, rfl⟩ := mem_natDigitsAux (n + 1) n c h
    exact digitChar_ne_dash d hd

theorem append_dash_inj : ∀ (l1 l2 r1 r2 : List Char), '-' ∉ l1 → '-' ∉ l2 →
    l1 ++ '-' :: r1 = l2 ++ '-' :: r2 → l1 = l2 ∧ r1 = r2 := by
  intro l1
  induction l1 with
  | nil =>
    intro l2 r1 r2 _ h2 heq
    cases l2 with
    | nil => simpa using heq
    | cons c t =>
      simp only [List.nil_append, List.cons_append, List.cons.injEq] at heq
      exact absurd (by rw [heq.1]; exact List.mem_cons_self c t) h2
  | cons c1 t1 ih =>
    intro l2 r1 r2 h1 h2 heq
    cases l2 with
    | nil =>
      simp only [List.cons_append, List.nil_append, List.cons.injEq] at heq
      exact absurd (by rw [← heq.1]; exact List.mem_cons_self c1 t1) h1
    | cons c2 t2 =>
      simp only [List.cons_append, List.cons.injEq] at heq
      obtain ⟨hc, hrest⟩ := heq
      have h1' : '-' ∉ t1 := fun hm => h1 (List.mem_cons_of_mem c1 hm)
      have h2' : '-' ∉ t2 := fun hm => h2 (List.mem_cons_of_mem c2 hm)
      obtain ⟨hl, hr⟩ := ih t2 r1 r2 h1' h2' hrest
      exact ⟨by rw [hc, hl], hr⟩

theorem periodLabel_month_inj {a b : DateTime}
    (h : periodLabel .MONTH a = periodLabel .MONTH b) :
    a.year = b.year ∧ a.month = b.month := by
  simp only [periodLabel] at h
  have hdata := congrArg String.data h
  simp only at hdata
  obtain ⟨hy, hm⟩ := append_dash_inj _ _ _ _
    (fun hc => ne_dash_of_mem_padChars hc rfl) (fun hc => ne_dash_of_mem_padChars hc rfl) hdata
  exact ⟨padChars_inj hy, padChars_inj hm⟩

theorem periodLabel_year_inj {a b : DateTime}
    (h : periodLabel .YEAR a = periodLabel .YEAR b) : a.year = b.year := by
  simp only [periodLabel] at h
  have hdata := congrArg String.data h
  simp only at hdata
  exact padChars_inj hdata

/-! ## Claim C6: the pre-seeding walk -/

theorem dtLt_measure {a b : DateTime} (h : dtLt a b = true) : dtMeasure a ≤ dtMeasure b := by
  simp only [dtLt] at h
  split_ifs at h <;> simp only [decide_eq_true_eq] at h <;> simp only [dtMeasure] <;> omega

theorem measure_incrPeriod (res : Resolution) (dt : DateTime) :
    dtMeasure dt < dtMeasure (incrPeriod res dt) := by
  cases res with
  | MONTH =>
    by_cases h : 12 ≤ dt.month <;>
      simp only [incrPeriod, if_pos, if_neg, h, reduceIte, dtMeasure] <;> omega
  | YEAR => simp only [incrPeriod, dtMeasure]; omega

theorem dtLt_false_of_measure {c l : DateTime} (h : dtMeasure l + 1 - dtMeasure c = 0) :
    dtLt c l = false := by
  cases hb : dtLt c l
  · rfl
  · exact absurd (dtLt_measure hb) (by omega)

theorem seedKeysFuel_congr : ∀ (f1 f2 : Nat) (c l : DateTime) (r : Resolution),
    dtMeasure l + 1 - dtMeasure c ≤ f1 → dtMeasure l + 1 - dtMeasure c ≤ f2 →
    seedKeysFuel f1 c l r = seedKeysFuel f2 c l r := by
  intro f1
  induction f1 with
  | zero =>
    intro f2 c l r h1 _
    have hf : dtLt c l = false := dtLt_false_of_measure (by omega)
    cases f2 with
    | zero => rfl
    | succ f2 => simp [seedKeysFuel, hf]
  | succ f1 ih =>
    intro f2 c l r h1 h2
    cases f2 with
    | zero =>
      have hf : dtLt c l = false := dtLt_false_of_measure (by omega)
      simp [seedKeysFuel, hf]
    | succ f2 =>
      simp only [seedKeysFuel]
      cases hb : dtLt c l with
      | false => rfl
      | true =>
        have hm1 := dtLt_measure hb
        have hm2 := measure_incrPeriod r c
        simp only [if_true]
        exact congrArg (List.cons (periodLabel r c))
          (ih f2 (incrPeriod r c) l r (by omega) (by omega))

theorem seedKeysFuel_eq_seedKeys (fuel : Nat) (c l : DateTime) (r : Resolution)
    (h : dtMeasure l + 1 - dtMeasure c ≤ fuel) : seedKeysFuel fuel c l r = seedKeys c l r :=
  seedKeysFuel_congr fuel _ c l r h (Nat.le_refl _)

/-- The defining equation of the source's `while current < last_timestamp`
pre-seeding loop: `seedKeys` is exactly its sequence of labels. -/
theorem seedKeys_eq (c l : DateTime) (r : Resolution) :
    seedKeys c l r =
      if dtLt c l then periodLabel r c :: seedKeys (incrPeriod r c) l r else [] := by
  cases hb : dtLt c l
  · simp only [Bool.false_eq_true, if_false]
    unfold seedKeys
    cases hm : dtMeasure l + 1 - dtMeasure c with
    | zero => rfl
    | succ k => simp [seedKeysFuel, hb]
  · have hm1 := dtLt_measure hb
    have hm2 := measure_incrPeriod r c
    simp only [if_true]
    have hstep : dtMeasure l + 1 - dtMeasure c = (dtMeasure l - dtMeasure c) + 1 := by omega
    rw [seedKeys, hstep]
    simp only [seedKeysFuel, hb, if_true]
    rw [seedKeysFuel_eq_seedKeys _ _ _ _ (by omega)]

theorem seedKeys_eq_range (c l : DateTime) (r : Resolution) :
    seedKeys c l r = (List.range (seedKeys c l r).length).map
      (fun i => periodLabel r ((incrPeriod r)^[i] c)) := by
  generalize hn : dtMeasure l + 1 - dtMeasure c = n
  induction n using Nat.strong_induction_on generalizing c with
  | _ n ih =>
    rw [seedKeys_eq]
    cases hb : dtLt c l
    · simp
    · have hm1 := dtLt_measure hb
      have hm2 := measure_incrPeriod r c
      have hrec := ih (dtMeasure l + 1 - dtMeasure (incrPeriod r c)) (by omega)
        (incrPeriod r c) rfl
      simp only [if_true]
      rw [List.length_cons, List.range_succ_eq_map, List.map_cons, List.map_map]
      refine congrArg₂ List.cons (by simp) ?_
      conv_lhs => rw [hrec]
      refine List.map_congr_left ?_
      intro i _
      simp [Function.iterate_succ_apply]

theorem dtLex_incrPeriod (res : Resolution) (dt : DateTime) : dtLex dt (incrPeriod res dt) := by
  cases res with
  | MONTH =>
    by_cases h : 12 ≤ dt.month
    · rw [show incrPeriod .MONTH dt = { dt with year := dt.year + 1, month := 1 } by
        simp [incrPeriod, h]]
      exact Or.inl (Nat.lt_succ_self _)
    · rw [show incrPeriod .MONTH dt = { dt with month := dt.month + 1 } by
        simp [incrPeriod, h]]
      exact Or.inr ⟨rfl, Nat.lt_succ_self _⟩
  | YEAR => exact Or.inl (Nat.lt_succ_self _)

theorem dtLex_trans {a b c : DateTime} (h1 : dtLex a b) (h2 : dtLex b c) : dtLex a c := by
  unfold dtLex at *
  omega

theorem dtLex_iterate_succ (res : Resolution) (dt : DateTime) :
    ∀ k : Nat, dtLex dt ((incrPeriod res)^[k + 1] dt) := by
  intro k
  induction k with
  | zero => simpa using dtLex_incrPeriod res dt
  | succ k ih =>
    rw [Function.iterate_succ_apply']
    exact dtLex_trans ih (dtLex_incrPeriod res _)

theorem dtLex_iterate (res : Resolution) (dt : DateTime) {i j : Nat} (h : i < j) :
    dtLex ((incrPeriod res)^[i] dt) ((incrPeriod res)^[j] dt) := by
  obtain ⟨k, rfl⟩ : ∃ k, j = i + (k + 1) := ⟨j - i - 1, by omega⟩
  rw [Nat.add_comm i (k + 1), Function.iterate_add_apply]
  exact dtLex_iterate_succ res _ k

theorem year_iterate_YEAR (dt : DateTime) :
    ∀ i : Nat, ((incrPeriod .YEAR)^[i] dt).year = dt.year + i := by
  intro i
  induction i with
  | zero => simp
  | succ i ih =>
    rw [Function.iterate_succ_apply']
    show ((incrPeriod .YEAR) _).year = _
    simp only [incrPeriod, ih]
    omega

theorem periodLabel_iterate_inj (res : Resolution) (dt : DateTime) (i j : Nat)
    (h : periodLabel res ((incrPeriod res)^[i] dt) =
      periodLabel res ((incrPeriod res)^[j] dt)) : i = j := by
  have key : ∀ i j : Nat, i < j →
      periodLabel res ((incrPeriod res)^[i] dt) ≠
        periodLabel res ((incrPeriod res)^[j] dt) := by
    intro i j hij heq
    cases res with
    | MONTH =>
      obtain ⟨hy, hm⟩ := periodLabel_month_inj heq
      have hl := dtLex_iterate .MONTH dt hij
      unfold dtLex at hl
      omega
    | YEAR =>
      have hy := periodLabel_year_inj heq
      rw [year_iterate_YEAR, year_iterate_YEAR] at hy
      omega
  rcases Nat.lt_trichotomy i j with hij | hij | hij
  · exact absurd h (key i j hij)
  · exact hij
  · exact absurd h.symm (key j i hij)

theorem seedKeys_nodup (c l : DateTime) (r : Resolution) : (seedKeys c l r).Nodup := by
  rw [seedKeys_eq_range]
  refine List.Nodup.map_on ?_ (List.nodup_range _)
  intro i _ j _ hf
  exact periodLabel_iterate_inj r c i j hf

theorem dictSet_keys_of_get {m : List (String × Bucket)} {k : String} {b : Bucket}
    (v : Bucket) (h : dictGet m k = .ok b) :
    (dictSet m k v).map Prod.fst = m.map Prod.fst := by
  induction m with
  | nil => simp [dictGet] at h
  | cons hd tl ih =>
    obtain ⟨k', v'⟩ := hd
    simp only [dictGet] at h
    simp only [dictSet]
    split_ifs at h ⊢ with hk
    · simp [hk]
    · simp only [List.map_cons]
      rw [ih h]

theorem sumLoop_keys (res : Resolution) :
    ∀ (acts : List Activity) (m m' : List (String × Bucket)),
      sumLoop res m acts = .ok m' → m'.map Prod.fst = m.map Prod.fst := by
  intro acts
  induction acts with
  | nil =>
    intro m m' h
    simp only [sumLoop] at h
    injection h with h
    rw [h]
  | cons a rest ih =>
    intro m m' h
    simp only [sumLoop] at h
    cases hget : dictGet m (actLabel res a) with
    | error e => simp [hget] at h
    | ok b =>
      simp only [hget] at h
      rw [ih _ _ h, dictSet_keys_of_get _ hget]

theorem co2Pass_keys (m : List (String × Bucket)) :
    (co2Pass m).map Prod.fst = m.map Prod.fst := by
  simp [co2Pass, List.map_map, Function.comp]

theorem dictSet_fresh {m : List (String × Bucket)} {k : String} (v : Bucket)
    (h : k ∉ m.map Prod.fst) : dictSet m k v = m ++ [(k, v)] := by
  induction m with
  | nil => rfl
  | cons hd tl ih =>
    obtain ⟨k', v'⟩ := hd
    simp only [List.map_cons, List.mem_cons, not_or] at h
    simp only [dictSet]
    rw [if_neg (fun hh => h.1 hh.symm), ih h.2]
    rfl

theorem foldl_dictSet_fresh : ∀ (ks : List String) (m : List (String × Bucket)),
    ks.Nodup → (∀ k ∈ ks, k ∉ m.map Prod.fst) →
    ks.foldl (fun m k => dictSet m k zeroBucket) m =
      m ++ ks.map (fun k => (k, zeroBucket)) := by
  intro ks
  induction ks with
  | nil => intro m _ _; simp
  | cons k ks ih =>
    intro m hnd hfresh
    simp only [List.foldl_cons]
    rw [dictSet_fresh zeroBucket (hfresh k (List.mem_cons_self _ _)),
      ih (m ++ [(k, zeroBucket)]) (List.Nodup.of_cons hnd) ?_]
    · simp
    · intro k' hk'
      simp only [List.map_append, List.mem_append, not_or]
      refine ⟨hfresh k' (List.mem_cons_of_mem _ hk'), ?_⟩
      intro hmem
      simp only [List.map_cons, List.map_nil, List.mem_singleton] at hmem
      subst hmem
      exact (List.nodup_cons.mp hnd).1 hk'

theorem seedBuckets_keys (c l : DateTime) (r : Resolution) :
    (seedBuckets c l r).map Prod.fst = seedKeys c l r := by
  unfold seedBuckets
  rw [foldl_dictSet_fresh _ [] (seedKeys_nodup c l r) (by intro k _ h; simp at h)]
  rw [List.nil_append, List.map_map,
    show (Prod.fst ∘ fun k : String => (k, zeroBucket)) = id from rfl, List.map_id]

theorem mem_of_mem_dictSet_ne {m : List (String × Bucket)} {k : String} {v : Bucket}
    {kv : String × Bucket} (h : kv ∈ dictSet m k v) (hne : kv.1 ≠ k) : kv ∈ m := by
  rcases mem_dictSet h with h | h
  · exact absurd (by rw [h]) hne
  · exact h

theorem sumLoop_untouched (res : Resolution) :
    ∀ (acts : List Activity) (m m' : List (String × Bucket)),
      sumLoop res m acts = .ok m' →
      ∀ kv ∈ m', (∀ a ∈ acts, actLabel res a ≠ kv.1) → kv ∈ m := by
  intro acts
  induction acts with
  | nil =>
    intro m m' h kv hkv _
    simp only [sumLoop] at h
    injection h with h
    subst h
    exact hkv
  | cons a rest ih =>
    intro m m' h kv hkv huntouched
    simp only [sumLoop] at h
    cases hget : dictGet m (actLabel res a) with
    | error e => simp [hget] at h
    | ok b =>
      simp only [hget] at h
      have h1 := ih _ _ h kv hkv (fun a' ha' => huntouched a' (List.mem_cons_of_mem a ha'))
      exact mem_of_mem_dictSet_ne h1
        (fun hh => huntouched a (List.mem_cons_self a rest) hh.symm)

theorem co2Fill_zeroBucket : co2Fill zeroBucket = zeroBucket := by
  simp [co2Fill, zeroBucket, kg_co2_air_eq, kg_co2_road_eq, kg_co2_rail_eq]

/-- C6: on every successful run over a non-empty sorted input, the keys
of the returned map are exactly the labels of the consecutive periods
starting at the earliest activity's period (a contiguous, chronologically
increasing walk by one period per step), they contain no duplicates, and
every bucket whose period contains no activity is all zeros. -/
theorem bucketize_bucket_sequence (acts : List Activity) (res : Resolution)
    (hne : acts ≠ []) (hsorted : SortedByTs acts)
    (m : List (String × Bucket)) (hok : bucketize acts res = .ok m) :
    (∃ n : Nat, 1 ≤ n ∧ m.map Prod.fst = (List.range n).map
      (fun i => periodLabel res ((incrPeriod res)^[i]
        (floorPeriod res (parse_timestamp (acts.head hne).ts))))) ∧
    (m.map Prod.fst).Nodup ∧
    (∀ kv ∈ m, (∀ a ∈ acts, actLabel res a ≠ kv.1) → kv.2 = zeroBucket) := by
  cases acts with
  | nil => exact absurd rfl hne
  | cons a0 rest =>
    simp only [bucketize] at hok
    split at hok
    · exact absurd hok (by simp)
    · rename_i summed hsum
      injection hok with hok
      subst hok
      set cur := floorPeriod res (parse_timestamp a0.ts) with hcur
      set lst := parse_timestamp (((a0 :: rest).getLast (List.cons_ne_nil a0 rest)).ts) with hlst
      have hkeys : (co2Pass summed).map Prod.fst = seedKeys cur lst res := by
        rw [co2Pass_keys, sumLoop_keys res _ _ _ hsum, seedBuckets_keys]
      have hne2 : seedKeys cur lst res ≠ [] := by
        intro hempty
        have hseed : seedBuckets cur lst res = [] := by
          have hk := seedBuckets_keys cur lst res
          rw [hempty] at hk
          exact List.map_eq_nil_iff.mp hk
        rw [hseed] at hsum
        simp [sumLoop, dictGet] at hsum
      refine ⟨⟨(seedKeys cur lst res).length, ?_, ?_⟩, ?_, ?_⟩
      · have := List.length_pos.mpr hne2
        omega
      · rw [hkeys]
        simp only [List.head_cons]
        rw [← hcur]
        exact seedKeys_eq_range cur lst res
      · rw [hkeys]
        exact seedKeys_nodup cur lst res
      · intro kv hkv huntouched
        simp only [co2Pass, List.mem_map] at hkv
        obtain ⟨kv0, hkv0, rfl⟩ := hkv
        have h0 := sumLoop_untouched res _ _ _ hsum kv0 hkv0
          (fun a' ha' => huntouched a' ha')
        have hz := seedBuckets_allZero cur lst res kv0 h0
        show co2Fill kv0.2 = zeroBucket
        rw [hz, co2Fill_zeroBucket]

/-- Witness for C6: a single 5 km air activity on 2021-01-14 yields the
single key "2021-01" with no duplicates. -/
theorem bucketize_bucket_sequence_witness :
    (([("2021-01", (⟨5, 0, 0, 0, 0, 0⟩ : Bucket))].map Prod.fst).Nodup) :=
  (bucketize_bucket_sequence [⟨1610150400000, 5, "AIR"⟩] .MONTH
    (by decide) (by decide) [("2021-01", ⟨5, 0, 0, 0, 0, 0⟩)]
    (by rw [bucketize_eq_eval]; rfl)).2.1

end CarbonTimeline
